import Mathlib

/-!
Shallow embedding of the interval-normalizer core of
`src/political_timelines.py`.

The Python core consists of
  * `year_month_to_date(year_month: float) -> datetime`, and
  * `PoliticalTimelinePlotter._complement_periods(periods, start_date, end_date)`.

Floats are embedded as rationals.  Every float literal appearing in the
claims is embedded as the exact rational value of the IEEE-754 double that
the Python literal denotes.  For any double `x` with `1 ≤ x < 2^14` the
whole Python computation `int(round((x - int(x)) * 100))` happens to be
exact: `x - int(x)` is exact by Sterbenz's lemma, and the product by 100
has numerator below `2^53`, hence is representable; so the rational model
below computes precisely what CPython computes on such inputs, including
`round`'s round-half-to-even tie rule.  `datetime` values are embedded as
triples (year, month, day) with the lexicographic order that CPython uses
to compare `datetime` objects, and `datetime`'s constructor-range checks
(`1 ≤ year ≤ 9999`, `1 ≤ month ≤ 12`, `1 ≤ day ≤ days in month`) make the
embedded constructor return an `Option`.
-/

/-- Model of a CPython `datetime` restricted to its date fields. -/
structure Date where
  year : ℤ
  month : ℤ
  day : ℤ
deriving DecidableEq, Repr

namespace Date

/-- Lexicographic comparison on (year, month, day): how CPython orders
`datetime` values. -/
def dle (a b : Date) : Prop :=
  a.year < b.year ∨
    (a.year = b.year ∧ (a.month < b.month ∨ (a.month = b.month ∧ a.day ≤ b.day)))

instance dleDecidable (a b : Date) : Decidable (dle a b) := by
  unfold dle; infer_instance

instance instLinearOrder : LinearOrder Date where
  le := dle
  lt a b := dle a b ∧ ¬ dle b a
  le_refl a := by simp [dle]
  le_trans a b c hab hbc := by
    rcases a with ⟨ay, am, ad⟩; rcases b with ⟨by_, bm, bd⟩; rcases c with ⟨cy, cm, cd⟩
    simp only [dle] at *; omega
  le_antisymm a b hab hba := by
    rcases a with ⟨ay, am, ad⟩; rcases b with ⟨by_, bm, bd⟩
    simp only [dle] at *
    simp only [Date.mk.injEq]; omega
  le_total a b := by
    rcases a with ⟨ay, am, ad⟩; rcases b with ⟨by_, bm, bd⟩
    simp only [dle]; omega
  lt_iff_le_not_le a b := Iff.rfl
  decidableLE := dleDecidable
  decidableEq := inferInstance

theorem le_def {a b : Date} :
    a ≤ b ↔ (a.year < b.year ∨
      (a.year = b.year ∧ (a.month < b.month ∨ (a.month = b.month ∧ a.day ≤ b.day)))) :=
  Iff.rfl

theorem lt_def {a b : Date} :
    a < b ↔ (a.year < b.year ∨
      (a.year = b.year ∧ (a.month < b.month ∨ (a.month = b.month ∧ a.day < b.day)))) := by
  constructor
  · rintro ⟨h1, h2⟩
    rcases a with ⟨ay, am, ad⟩; rcases b with ⟨by_, bm, bd⟩
    simp only [dle] at h1 h2; dsimp only at *; omega
  · intro h
    rcases a with ⟨ay, am, ad⟩; rcases b with ⟨by_, bm, bd⟩
    dsimp only at h
    refine ⟨?_, ?_⟩ <;> simp only [dle] <;> omega

/-- Gregorian month length, as CPython's `datetime` validates days. -/
def daysInMonth (year month : ℤ) : ℤ :=
  if month = 2 then
    (if year % 4 = 0 ∧ (year % 100 ≠ 0 ∨ year % 400 = 0) then 29 else 28)
  else if month = 4 ∨ month = 6 ∨ month = 9 ∨ month = 11 then 30
  else 31

end Date

/-- Model of the CPython constructor call `datetime(year, month, day)`:
`None` models the `ValueError` CPython raises on out-of-range fields
(`MINYEAR = 1`, `MAXYEAR = 9999`). -/
def datetime (year month day : ℤ) : Option Date :=
  if 1 ≤ year ∧ year ≤ 9999 ∧ 1 ≤ month ∧ month ≤ 12 ∧
      1 ≤ day ∧ day ≤ Date.daysInMonth year month then
    some ⟨year, month, day⟩
  else none

/-- Model of Python `int(x)` on a real value: truncation toward zero. -/
def pyInt (q : ℚ) : ℤ := if q < 0 then -⌊-q⌋ else ⌊q⌋

/-- Model of Python `round(x)` on a real value: round half to even. -/
def pyRound (q : ℚ) : ℤ :=
  if q - ⌊q⌋ < 1/2 then ⌊q⌋
  else if 1/2 < q - ⌊q⌋ then ⌊q⌋ + 1
  else if 2 ∣ ⌊q⌋ then ⌊q⌋ else ⌊q⌋ + 1

/-- Embedding of `year_month_to_date` (src/political_timelines.py:8-12):
`year = int(year_month); month = int(round((year_month - year) * 100));
return datetime(year, month, 1)`. -/
def year_month_to_date (year_month : ℚ) : Option Date :=
  let year := pyInt year_month
  let month := pyRound ((year_month - year) * 100)
  datetime year month 1

/-! Exact rational values of the IEEE-754 doubles denoted by the Python
float literals used in the claims.  (E.g. the double nearest to 2000.01
is 8796137002673111 / 2^42.) -/

def fl2000_01 : ℚ := 8796137002673111 / 4398046511104
def fl2030_08 : ℚ := 1116048282657751 / 549755813888
def fl2005_10 : ℚ := 4409261529707315 / 2199023255552
/-- The Python literal `2005.1` denotes the same double as `2005.10`. -/
def fl2005_1 : ℚ := 4409261529707315 / 2199023255552
def fl2005_01 : ℚ := 8818127235228631 / 4398046511104
def fl2005_12 : ℚ := 2204652755086213 / 1099511627776
def fl2005_13 : ℚ := 2204663750202491 / 1099511627776
def fl2001_10 : ℚ := 4400465436685107 / 2199023255552
def fl2003_01 : ℚ := 8809331142206423 / 4398046511104
def fl2007_11 : ℚ := 8827363132901949 / 4398046511104
def fl2010_01 : ℚ := 8840117467784151 / 4398046511104
def fl2030_01 : ℚ := 8928078398006231 / 4398046511104
/-- The Python literal `2005.00` denotes the double 2005.0, exactly 2005. -/
def fl2005_00 : ℚ := 2005

/-! ### The complement sweep (src/political_timelines.py:46-73) -/

/-- The cursor update of one loop iteration:
`if period_end > current_start: current_start = period_end`. -/
def stepCursor {α : Type*} [LinearOrder α] (c pe : α) : α :=
  if c < pe then pe else c

/-- The sweep loop of `_complement_periods` (lines 61-73): walk the sorted
interval list with a cursor, emitting `(current_start, period_start)`
whenever `period_start > current_start`, then the tail segment
`(current_start, end_date)` if the cursor is still short of `end_date`. -/
def sweep {α : Type*} [LinearOrder α] (c endDate : α) : List (α × α) → List (α × α)
  | [] => if c < endDate then [(c, endDate)] else []
  | p :: rest =>
      (if c < p.1 then [(c, p.1)] else []) ++ sweep (stepCursor c p.2) endDate rest

/-- The list comprehension of lines 56-58: convert each (start, end) pair of
floats through `year_month_to_date`; any conversion failure aborts
(models the exception propagating out of `_complement_periods`). -/
def decodePeriods : List (ℚ × ℚ) → Option (List (Date × Date))
  | [] => some []
  | p :: ps =>
      match year_month_to_date p.1, year_month_to_date p.2, decodePeriods ps with
      | some a, some b, some rest => some ((a, b) :: rest)
      | _, _, _ => none

/-- `key=lambda x: x[0]` of line 58. -/
def startLE (a b : Date × Date) : Prop := a.1 ≤ b.1

instance startLEDecidable : DecidableRel startLE := fun a b =>
  inferInstanceAs (Decidable (a.1 ≤ b.1))

instance : IsTotal (Date × Date) startLE := ⟨fun a b => le_total a.1 b.1⟩

instance : IsTrans (Date × Date) startLE := ⟨fun _ _ _ => le_trans⟩

/-- `sorted(..., key=lambda x: x[0])` of lines 56-59: a stable sort by start
date (insertion sort is stable, hence agrees with CPython's stable sort). -/
def sortPeriods (l : List (Date × Date)) : List (Date × Date) :=
  List.insertionSort startLE l

/-- Default resolution of lines 53-54:
`start_date = start_date or year_month_to_date(2000.01)` (a `datetime` is
always truthy, so `or` falls through only on `None`). -/
def resolveWindow (w : Option Date) (dflt : ℚ) : Option Date :=
  match w with
  | some d => some d
  | none => year_month_to_date dflt

/-- Embedding of `_complement_periods` (src/political_timelines.py:46-73).
`start_date`/`end_date` are optional exactly as in the source, defaulting to
the decodes of 2000.01 and 2030.08; `none` on the result models an
exception escaping the call. -/
def _complement_periods (periods : List (ℚ × ℚ))
    (start_date end_date : Option Date) : Option (List (Date × Date)) :=
  match resolveWindow start_date fl2000_01, resolveWindow end_date fl2030_08,
        decodePeriods periods with
  | some sd, some ed, some pdt => some (sweep sd ed (sortPeriods pdt))
  | _, _, _ => none

/-! ### Day-set semantics of intervals -/

/-- Membership of a calendar day in the half-open day span of an interval. -/
def inIvl {α : Type*} [LinearOrder α] (p : α × α) (d : α) : Prop := p.1 ≤ d ∧ d < p.2

/-- A day is covered by an interval list iff some member interval spans it. -/
def covers {α : Type*} [LinearOrder α] (l : List (α × α)) (d : α) : Prop := ∃ p ∈ l, inIvl p d

/-- Two intervals are disjoint as sets of calendar days. -/
def ivlDisjoint {α : Type*} [LinearOrder α] (a b : α × α) : Prop :=
  ∀ d, inIvl a d → inIvl b d → False

/-! ### Evaluation of the YearMonth decoder -/

theorem Date.one_le_daysInMonth (y m : ℤ) : 1 ≤ Date.daysInMonth y m := by
  unfold Date.daysInMonth; split_ifs <;> norm_num

theorem pyInt_eq_floor {q : ℚ} (h : 0 ≤ q) : pyInt q = ⌊q⌋ := if_neg (not_lt.mpr h)

theorem pyRound_of_lt_half {q : ℚ} {f : ℤ} (hf : ⌊q⌋ = f) (h : q - f < 1/2) :
    pyRound q = f := by
  unfold pyRound; rw [hf]; exact if_pos h

theorem pyRound_of_half_lt {q : ℚ} {f : ℤ} (hf : ⌊q⌋ = f) (h : 1/2 < q - f) :
    pyRound q = f + 1 := by
  unfold pyRound; rw [hf, if_neg (by linarith), if_pos h]

theorem datetime_valid {y m : ℤ} (h1 : 1 ≤ y) (h2 : y ≤ 9999) (h3 : 1 ≤ m) (h4 : m ≤ 12) :
    datetime y m 1 = some ⟨y, m, 1⟩ := by
  unfold datetime
  exact if_pos ⟨h1, h2, h3, h4, le_refl 1, Date.one_le_daysInMonth y m⟩

theorem datetime_invalid_month {y m : ℤ} (hbad : m < 1 ∨ 12 < m) :
    datetime y m 1 = none := by
  unfold datetime
  rw [if_neg]
  rintro ⟨-, -, h3, h4, -, -⟩
  rcases hbad with h | h <;> omega

/-- Evaluation rule for `year_month_to_date` on a nonnegative input whose
decoded month lands in [1, 12]. -/
theorem year_month_to_date_eq {q : ℚ} {y m : ℤ}
    (hfloor : ⌊q⌋ = y) (hy1 : 1 ≤ y) (hy2 : y ≤ 9999)
    (hm : pyRound ((q - (y : ℚ)) * 100) = m) (hm1 : 1 ≤ m) (hm2 : m ≤ 12) :
    year_month_to_date q = some ⟨y, m, 1⟩ := by
  have hyq : (y : ℚ) ≤ q := by rw [← hfloor]; exact Int.floor_le q
  have h1q : (1 : ℚ) ≤ (y : ℚ) := by exact_mod_cast hy1
  have h0 : ¬ (q < 0) := by push_neg; linarith
  show datetime (pyInt q) (pyRound ((q - ((pyInt q : ℤ) : ℚ)) * 100)) 1 = _
  rw [pyInt, if_neg h0, hfloor, hm]
  exact datetime_valid hy1 hy2 hm1 hm2

/-- Evaluation rule for `year_month_to_date` when the decoded month falls
outside [1, 12]: the `datetime` constructor rejects it. -/
theorem year_month_to_date_eq_none {q : ℚ} {y m : ℤ}
    (hfloor : ⌊q⌋ = y) (hy1 : 1 ≤ y)
    (hm : pyRound ((q - (y : ℚ)) * 100) = m) (hbad : m < 1 ∨ 12 < m) :
    year_month_to_date q = none := by
  have hyq : (y : ℚ) ≤ q := by rw [← hfloor]; exact Int.floor_le q
  have h1q : (1 : ℚ) ≤ (y : ℚ) := by exact_mod_cast hy1
  have h0 : ¬ (q < 0) := by push_neg; linarith
  show datetime (pyInt q) (pyRound ((q - ((pyInt q : ℤ) : ℚ)) * 100)) 1 = _
  rw [pyInt, if_neg h0, hfloor, hm]
  exact datetime_invalid_month hbad

theorem decode_fl2000_01 : year_month_to_date fl2000_01 = some ⟨2000, 1, 1⟩ := by
  refine year_month_to_date_eq ?_ (by norm_num) (by norm_num) ?_ (by norm_num) (by norm_num)
  · rw [Int.floor_eq_iff]; norm_num [fl2000_01]
  · rw [pyRound_of_half_lt (f := 0)]
    · norm_num
    · rw [Int.floor_eq_iff]; norm_num [fl2000_01]
    · norm_num [fl2000_01]

theorem decode_fl2030_08 : year_month_to_date fl2030_08 = some ⟨2030, 8, 1⟩ := by
  refine year_month_to_date_eq ?_ (by norm_num) (by norm_num) ?_ (by norm_num) (by norm_num)
  · rw [Int.floor_eq_iff]; norm_num [fl2030_08]
  · rw [pyRound_of_half_lt (f := 7)]
    · norm_num
    · rw [Int.floor_eq_iff]; norm_num [fl2030_08]
    · norm_num [fl2030_08]

theorem decode_fl2005_10 : year_month_to_date fl2005_10 = some ⟨2005, 10, 1⟩ := by
  refine year_month_to_date_eq ?_ (by norm_num) (by norm_num) ?_ (by norm_num) (by norm_num)
  · rw [Int.floor_eq_iff]; norm_num [fl2005_10]
  · rw [pyRound_of_half_lt (f := 9)]
    · norm_num
    · rw [Int.floor_eq_iff]; norm_num [fl2005_10]
    · norm_num [fl2005_10]

theorem decode_fl2005_1 : year_month_to_date fl2005_1 = some ⟨2005, 10, 1⟩ := by
  refine year_month_to_date_eq ?_ (by norm_num) (by norm_num) ?_ (by norm_num) (by norm_num)
  · rw [Int.floor_eq_iff]; norm_num [fl2005_1]
  · rw [pyRound_of_half_lt (f := 9)]
    · norm_num
    · rw [Int.floor_eq_iff]; norm_num [fl2005_1]
    · norm_num [fl2005_1]

theorem decode_fl2005_01 : year_month_to_date fl2005_01 = some ⟨2005, 1, 1⟩ := by
  refine year_month_to_date_eq ?_ (by norm_num) (by norm_num) ?_ (by norm_num) (by norm_num)
  · rw [Int.floor_eq_iff]; norm_num [fl2005_01]
  · rw [pyRound_of_half_lt (f := 0)]
    · norm_num
    · rw [Int.floor_eq_iff]; norm_num [fl2005_01]
    · norm_num [fl2005_01]

theorem decode_fl2005_12 : year_month_to_date fl2005_12 = some ⟨2005, 12, 1⟩ := by
  refine year_month_to_date_eq ?_ (by norm_num) (by norm_num) ?_ (by norm_num) (by norm_num)
  · rw [Int.floor_eq_iff]; norm_num [fl2005_12]
  · rw [pyRound_of_half_lt (f := 11)]
    · norm_num
    · rw [Int.floor_eq_iff]; norm_num [fl2005_12]
    · norm_num [fl2005_12]

theorem decode_fl2005_13 : year_month_to_date fl2005_13 = none := by
  refine year_month_to_date_eq_none (y := 2005) (m := 13) ?_ (by norm_num) ?_ (by norm_num)
  · rw [Int.floor_eq_iff]; norm_num [fl2005_13]
  · rw [pyRound_of_lt_half (f := 13)]
    · rw [Int.floor_eq_iff]; norm_num [fl2005_13]
    · norm_num [fl2005_13]

theorem decode_fl2005_00 : year_month_to_date fl2005_00 = none := by
  refine year_month_to_date_eq_none (y := 2005) (m := 0) ?_ (by norm_num) ?_ (by norm_num)
  · rw [Int.floor_eq_iff]; norm_num [fl2005_00]
  · rw [pyRound_of_lt_half (f := 0)]
    · rw [Int.floor_eq_iff]; norm_num [fl2005_00]
    · norm_num [fl2005_00]

theorem decode_fl2001_10 : year_month_to_date fl2001_10 = some ⟨2001, 10, 1⟩ := by
  refine year_month_to_date_eq ?_ (by norm_num) (by norm_num) ?_ (by norm_num) (by norm_num)
  · rw [Int.floor_eq_iff]; norm_num [fl2001_10]
  · rw [pyRound_of_half_lt (f := 9)]
    · norm_num
    · rw [Int.floor_eq_iff]; norm_num [fl2001_10]
    · norm_num [fl2001_10]

theorem decode_fl2003_01 : year_month_to_date fl2003_01 = some ⟨2003, 1, 1⟩ := by
  refine year_month_to_date_eq ?_ (by norm_num) (by norm_num) ?_ (by norm_num) (by norm_num)
  · rw [Int.floor_eq_iff]; norm_num [fl2003_01]
  · rw [pyRound_of_half_lt (f := 0)]
    · norm_num
    · rw [Int.floor_eq_iff]; norm_num [fl2003_01]
    · norm_num [fl2003_01]

theorem decode_fl2007_11 : year_month_to_date fl2007_11 = some ⟨2007, 11, 1⟩ := by
  refine year_month_to_date_eq ?_ (by norm_num) (by norm_num) ?_ (by norm_num) (by norm_num)
  · rw [Int.floor_eq_iff]; norm_num [fl2007_11]
  · rw [pyRound_of_half_lt (f := 10)]
    · norm_num
    · rw [Int.floor_eq_iff]; norm_num [fl2007_11]
    · norm_num [fl2007_11]

theorem decode_fl2010_01 : year_month_to_date fl2010_01 = some ⟨2010, 1, 1⟩ := by
  refine year_month_to_date_eq ?_ (by norm_num) (by norm_num) ?_ (by norm_num) (by norm_num)
  · rw [Int.floor_eq_iff]; norm_num [fl2010_01]
  · rw [pyRound_of_half_lt (f := 0)]
    · norm_num
    · rw [Int.floor_eq_iff]; norm_num [fl2010_01]
    · norm_num [fl2010_01]

theorem decode_fl2030_01 : year_month_to_date fl2030_01 = some ⟨2030, 1, 1⟩ := by
  refine year_month_to_date_eq ?_ (by norm_num) (by norm_num) ?_ (by norm_num) (by norm_num)
  · rw [Int.floor_eq_iff]; norm_num [fl2030_01]
  · rw [pyRound_of_half_lt (f := 0)]
    · norm_num
    · rw [Int.floor_eq_iff]; norm_num [fl2030_01]
    · norm_num [fl2030_01]

/-! ### Properties of the sweep -/

section SweepLemmas

variable {α : Type*} [LinearOrder α]

theorem stepCursor_eq_max (c pe : α) : stepCursor c pe = max c pe := by
  unfold stepCursor
  rcases le_or_lt pe c with h | h
  · rw [if_neg (not_lt.mpr h), max_eq_left h]
  · rw [if_pos h, max_eq_right h.le]

theorem le_stepCursor (c pe : α) : c ≤ stepCursor c pe := by
  rw [stepCursor_eq_max]; exact le_max_left c pe

theorem covers_nil_iff {d : α} : covers ([] : List (α × α)) d ↔ False := by
  simp [covers]

theorem covers_cons {p : α × α} {l : List (α × α)} {d : α} :
    covers (p :: l) d ↔ inIvl p d ∨ covers l d := by
  simp [covers]

theorem covers_append {l₁ l₂ : List (α × α)} {d : α} :
    covers (l₁ ++ l₂) d ↔ covers l₁ d ∨ covers l₂ d := by
  simp [covers, or_and_right, exists_or]

theorem covers_singleton {p : α × α} {d : α} : covers [p] d ↔ inIvl p d := by
  simp [covers]

/-- Day-coverage only depends on the members of the list. -/
theorem covers_perm {l₁ l₂ : List (α × α)} (h : l₁.Perm l₂) (d : α) :
    covers l₁ d ↔ covers l₂ d := by
  unfold covers
  constructor <;> rintro ⟨p, hp, hin⟩
  · exact ⟨p, h.mem_iff.mp hp, hin⟩
  · exact ⟨p, h.mem_iff.mpr hp, hin⟩

/-- Master invariant of the sweep loop.  For a start-sorted, pairwise-disjoint,
well-formed interval list bounded by `E`, with every interval either ahead of
the cursor or empty, the sweep emits non-empty intervals between the cursor
and `E`, chained in order, which complement the input's day coverage exactly
on `[c, E)` and overlap no input interval. -/
theorem sweep_spec (E : α) (l : List (α × α)) :
    ∀ (c : α),
      (∀ p ∈ l, p.1 ≤ p.2) →
      l.Pairwise (fun a b => a.1 ≤ b.1) →
      l.Pairwise ivlDisjoint →
      (∀ p ∈ l, p.2 ≤ E) →
      (∀ p ∈ l, c ≤ p.1 ∨ p.2 ≤ p.1) →
      (∀ p ∈ sweep c E l, p.1 < p.2) ∧
      (∀ p ∈ sweep c E l, c ≤ p.1 ∧ p.2 ≤ E) ∧
      (sweep c E l).Pairwise (fun a b => a.2 ≤ b.1) ∧
      (∀ d, (covers (sweep c E l) d ∨ covers l d) ↔ (c ≤ d ∧ d < E)) ∧
      (∀ p ∈ sweep c E l, ∀ q ∈ l, ivlDisjoint p q) := by
  induction l with
  | nil =>
    intro c _ _ _ _ _
    by_cases hcE : c < E
    · refine ⟨?_, ?_, ?_, ?_, ?_⟩
      · intro p hp
        simp only [sweep, if_pos hcE, List.mem_singleton] at hp
        subst hp; exact hcE
      · intro p hp
        simp only [sweep, if_pos hcE, List.mem_singleton] at hp
        subst hp; exact ⟨le_refl _, le_refl _⟩
      · simp only [sweep, if_pos hcE]
        exact List.pairwise_singleton _ _
      · intro d
        simp only [sweep, if_pos hcE, covers_singleton, covers_nil_iff, or_false]
        exact Iff.rfl
      · intro p _ q hq
        exact absurd hq (List.not_mem_nil q)
    · refine ⟨?_, ?_, ?_, ?_, ?_⟩
      · intro p hp
        simp only [sweep, if_neg hcE] at hp
        exact absurd hp (List.not_mem_nil p)
      · intro p hp
        simp only [sweep, if_neg hcE] at hp
        exact absurd hp (List.not_mem_nil p)
      · simp only [sweep, if_neg hcE]
        exact List.Pairwise.nil
      · intro d
        simp only [sweep, if_neg hcE, covers_nil_iff, or_false, false_iff]
        rintro ⟨h1, h2⟩
        exact hcE (lt_of_le_of_lt h1 h2)
      · intro p _ q hq
        exact absurd hq (List.not_mem_nil q)
  | cons hd rest ih =>
    intro c hwf hsort hdisj hbd hinv
    obtain ⟨s, e⟩ := hd
    have hse : s ≤ e := hwf _ (List.mem_cons_self _ _)
    have hsort_head : ∀ p ∈ rest, s ≤ p.1 := (List.pairwise_cons.mp hsort).1
    have hdisj_head : ∀ p ∈ rest, ivlDisjoint (s, e) p := (List.pairwise_cons.mp hdisj).1
    have hwf_rest : ∀ p ∈ rest, p.1 ≤ p.2 := fun p hp => hwf p (List.mem_cons_of_mem _ hp)
    have hsort_rest := (List.pairwise_cons.mp hsort).2
    have hdisj_rest := (List.pairwise_cons.mp hdisj).2
    have hbd_rest : ∀ p ∈ rest, p.2 ≤ E := fun p hp => hbd p (List.mem_cons_of_mem _ hp)
    have hbdE : e ≤ E := hbd _ (List.mem_cons_self _ _)
    by_cases hcs : c ≤ s
    · -- the head interval lies at or beyond the cursor
      have hcc' : c ≤ stepCursor c e := le_stepCursor c e
      have hec' : e ≤ stepCursor c e := by
        rw [stepCursor_eq_max]; exact le_max_right c e
      have hsc' : s ≤ stepCursor c e := le_trans hse hec'
      have hinv_rest : ∀ p ∈ rest, stepCursor c e ≤ p.1 ∨ p.2 ≤ p.1 := by
        intro p hp
        rcases hinv p (List.mem_cons_of_mem _ hp) with hcp | hpp
        · rcases le_or_lt p.2 p.1 with hempty | hnonempty
          · exact Or.inr hempty
          · rcases le_or_lt e p.1 with hep | hpe
            · left; rw [stepCursor_eq_max]; exact max_le hcp hep
            · exact absurd (hdisj_head p hp p.1 ⟨hsort_head p hp, hpe⟩
                ⟨le_refl _, hnonempty⟩) not_false
        · exact Or.inr hpp
      obtain ⟨IH1, IH2, IH3, IH4, IH5⟩ :=
        ih (stepCursor c e) hwf_rest hsort_rest hdisj_rest hbd_rest hinv_rest
      have hsweep : sweep c E ((s, e) :: rest) =
          (if c < s then [(c, s)] else []) ++ sweep (stepCursor c e) E rest := rfl
      refine ⟨?_, ?_, ?_, ?_, ?_⟩
      · intro p hp
        rw [hsweep, List.mem_append] at hp
        rcases hp with hp | hp
        · by_cases hlt : c < s
          · rw [if_pos hlt, List.mem_singleton] at hp; subst hp; exact hlt
          · rw [if_neg hlt] at hp; exact absurd hp (List.not_mem_nil p)
        · exact IH1 p hp
      · intro p hp
        rw [hsweep, List.mem_append] at hp
        rcases hp with hp | hp
        · by_cases hlt : c < s
          · rw [if_pos hlt, List.mem_singleton] at hp; subst hp
            exact ⟨le_refl _, le_trans hse hbdE⟩
          · rw [if_neg hlt] at hp; exact absurd hp (List.not_mem_nil p)
        · obtain ⟨h1, h2⟩ := IH2 p hp
          exact ⟨le_trans hcc' h1, h2⟩
      · rw [hsweep]
        apply List.pairwise_append.mpr
        refine ⟨?_, IH3, ?_⟩
        · by_cases hlt : c < s
          · rw [if_pos hlt]; exact List.pairwise_singleton _ _
          · rw [if_neg hlt]; exact List.Pairwise.nil
        · intro a ha b hb
          by_cases hlt : c < s
          · rw [if_pos hlt, List.mem_singleton] at ha; subst ha
            exact le_trans hsc' (IH2 b hb).1
          · rw [if_neg hlt] at ha; exact absurd ha (List.not_mem_nil a)
      · intro d
        rw [hsweep, covers_append, covers_cons]
        have hemit : covers (if c < s then [(c, s)] else []) d ↔ (c ≤ d ∧ d < s) := by
          by_cases hlt : c < s
          · rw [if_pos hlt, covers_singleton]; exact Iff.rfl
          · rw [if_neg hlt, covers_nil_iff]
            constructor
            · exact False.elim
            · rintro ⟨h1, h2⟩; exact hlt (lt_of_le_of_lt h1 h2)
        rw [hemit]
        have hIH := IH4 d
        constructor
        · rintro ((⟨hcd, hds⟩ | h) | (h | h))
          · exact ⟨hcd, lt_of_lt_of_le hds (le_trans hse hbdE)⟩
          · have h2 := hIH.mp (Or.inl h)
            exact ⟨le_trans hcc' h2.1, h2.2⟩
          · obtain ⟨h1, h2⟩ := h
            exact ⟨le_trans hcs h1, lt_of_lt_of_le h2 hbdE⟩
          · have h2 := hIH.mp (Or.inr h)
            exact ⟨le_trans hcc' h2.1, h2.2⟩
        · rintro ⟨hcd, hdE⟩
          rcases lt_or_le d s with hds | hsd
          · exact Or.inl (Or.inl ⟨hcd, hds⟩)
          · rcases lt_or_le d e with hde | hed
            · exact Or.inr (Or.inl ⟨hsd, hde⟩)
            · have hc'd : stepCursor c e ≤ d := by
                rw [stepCursor_eq_max]; exact max_le hcd hed
              rcases hIH.mpr ⟨hc'd, hdE⟩ with h | h
              · exact Or.inl (Or.inr h)
              · exact Or.inr (Or.inr h)
      · intro p hp q hq
        rw [hsweep, List.mem_append] at hp
        rcases List.mem_cons.mp hq with hq1 | hq2
        · subst hq1
          rcases hp with hp | hp
          · by_cases hlt : c < s
            · rw [if_pos hlt, List.mem_singleton] at hp; subst hp
              intro d hd1 hd2
              exact absurd (lt_of_le_of_lt hd2.1 hd1.2) (lt_irrefl s)
            · rw [if_neg hlt] at hp; exact absurd hp (List.not_mem_nil p)
          · intro d hd1 hd2
            have h1 := (IH2 p hp).1
            exact absurd (lt_of_le_of_lt (le_trans hec' (le_trans h1 hd1.1)) hd2.2)
              (lt_irrefl e)
        · rcases hp with hp | hp
          · by_cases hlt : c < s
            · rw [if_pos hlt, List.mem_singleton] at hp; subst hp
              intro d hd1 hd2
              exact absurd (lt_of_lt_of_le hd1.2 (le_trans (hsort_head q hq2) hd2.1))
                (lt_irrefl d)
            · rw [if_neg hlt] at hp; exact absurd hp (List.not_mem_nil p)
          · exact IH5 p hp q hq2
    · -- the head interval ends at or before `s`, hence is empty and behind `c`
      push_neg at hcs
      have hes : e ≤ s := by
        rcases hinv _ (List.mem_cons_self _ _) with h | h
        · exact absurd h (not_le.mpr hcs)
        · exact h
      have hse' : s = e := le_antisymm hse hes
      have hnoemit : ¬ c < s := not_lt.mpr hcs.le
      have hnostep : stepCursor c e = c := by
        rw [stepCursor_eq_max]
        exact max_eq_left (le_trans hes hcs.le)
      have hsweep : sweep c E ((s, e) :: rest) = sweep c E rest := by
        show (if c < s then [(c, s)] else []) ++ sweep (stepCursor c e) E rest = _
        rw [if_neg hnoemit, hnostep, List.nil_append]
      have hinv_rest : ∀ p ∈ rest, c ≤ p.1 ∨ p.2 ≤ p.1 :=
        fun p hp => hinv p (List.mem_cons_of_mem _ hp)
      obtain ⟨IH1, IH2, IH3, IH4, IH5⟩ :=
        ih c hwf_rest hsort_rest hdisj_rest hbd_rest hinv_rest
      rw [hsweep]
      have hempty : ∀ d, ¬ inIvl (s, e) d := by
        rintro d ⟨h1, h2⟩
        rw [hse'] at h1
        exact absurd (lt_of_le_of_lt h1 h2) (lt_irrefl e)
      refine ⟨IH1, IH2, IH3, ?_, ?_⟩
      · intro d
        rw [covers_cons, ← IH4 d]
        constructor
        · rintro (h | h | h)
          · exact Or.inl h
          · exact absurd h (hempty d)
          · exact Or.inr h
        · rintro (h | h)
          · exact Or.inl h
          · exact Or.inr (Or.inr h)
      · intro p hp q hq
        rcases List.mem_cons.mp hq with hq1 | hq2
        · subst hq1
          intro d _ hd2
          exact hempty d hd2
        · exact IH5 p hp q hq2

end SweepLemmas

/-! ### Wiring the sweep to `_complement_periods` -/

theorem _complement_periods_eq {periods : List (ℚ × ℚ)} {pdt : List (Date × Date)}
    (ws we : Date) (hdec : decodePeriods periods = some pdt) :
    _complement_periods periods (some ws) (some we) =
      some (sweep ws we (sortPeriods pdt)) := by
  unfold _complement_periods
  rw [hdec]
  rfl

theorem sortPeriods_perm (l : List (Date × Date)) : (sortPeriods l).Perm l :=
  List.perm_insertionSort startLE l

theorem sortPeriods_sorted (l : List (Date × Date)) :
    (sortPeriods l).Pairwise (fun a b => a.1 ≤ b.1) :=
  (List.sorted_insertionSort startLE l).imp (fun h => h)

/-- Outputs of the sweep never start before the cursor, and never end after
`end_date` provided every input interval starts no later than `end_date`. -/
theorem sweep_bounds {α : Type*} [LinearOrder α] (E : α) (l : List (α × α)) :
    ∀ c, (∀ p ∈ l, p.1 ≤ E) → ∀ q ∈ sweep c E l, c ≤ q.1 ∧ q.2 ≤ E := by
  induction l with
  | nil =>
    intro c _ q hq
    by_cases hcE : c < E
    · simp only [sweep, if_pos hcE, List.mem_singleton] at hq
      subst hq; exact ⟨le_refl _, le_refl _⟩
    · simp only [sweep, if_neg hcE] at hq
      exact absurd hq (List.not_mem_nil q)
  | cons hd rest ih =>
    intro c hbd q hq
    obtain ⟨s, e⟩ := hd
    have hq' : q ∈ (if c < s then [(c, s)] else []) ++ sweep (stepCursor c e) E rest := hq
    rw [List.mem_append] at hq'
    rcases hq' with hq1 | hq2
    · by_cases hlt : c < s
      · rw [if_pos hlt, List.mem_singleton] at hq1
        subst hq1
        exact ⟨le_refl _, hbd _ (List.mem_cons_self _ _)⟩
      · rw [if_neg hlt] at hq1
        exact absurd hq1 (List.not_mem_nil q)
    · have := ih (stepCursor c e) (fun p hp => hbd p (List.mem_cons_of_mem _ hp)) q hq2
      exact ⟨le_trans (le_stepCursor c e) this.1, this.2⟩

/-- Total version of the period conversion, valid when both decodes succeed. -/
def decodePeriodD (p : ℚ × ℚ) : Date × Date :=
  ((year_month_to_date p.1).getD ⟨1, 1, 1⟩, (year_month_to_date p.2).getD ⟨1, 1, 1⟩)

theorem decodePeriods_eq_map {l : List (ℚ × ℚ)}
    (h : ∀ p ∈ l, (year_month_to_date p.1).isSome ∧ (year_month_to_date p.2).isSome) :
    decodePeriods l = some (l.map decodePeriodD) := by
  induction l with
  | nil => rfl
  | cons p ps ih =>
    obtain ⟨h1, h2⟩ := h p (List.mem_cons_self _ _)
    obtain ⟨a, ha⟩ := Option.isSome_iff_exists.mp h1
    obtain ⟨b, hb⟩ := Option.isSome_iff_exists.mp h2
    have hih := ih (fun q hq => h q (List.mem_cons_of_mem _ hq))
    simp only [decodePeriods, ha, hb, hih, List.map_cons, decodePeriodD,
      Option.getD_some]

/-! ### Permutation invariance of the sorted sweep -/

section SortCongr

variable {α : Type*} [LinearOrder α]

/-- Swapping two adjacent intervals with equal starts does not change the
sweep, provided both are well-formed. -/
theorem sweep_swap {x y : α × α} (hxy : x.1 = y.1) (hx : x.1 ≤ x.2) (hy : y.1 ≤ y.2)
    (E : α) (r : List (α × α)) (c : α) :
    sweep c E (y :: x :: r) = sweep c E (x :: y :: r) := by
  have hstep : stepCursor (stepCursor c y.2) x.2 = stepCursor (stepCursor c x.2) y.2 := by
    rw [stepCursor_eq_max, stepCursor_eq_max, stepCursor_eq_max, stepCursor_eq_max,
      max_assoc, max_comm y.2 x.2, ← max_assoc]
  have hnoemit_yx : ¬ stepCursor c y.2 < x.1 := by
    rw [stepCursor_eq_max]
    exact not_lt.mpr (le_max_of_le_right (by rw [hxy]; exact hy))
  have hnoemit_xy : ¬ stepCursor c x.2 < y.1 := by
    rw [stepCursor_eq_max]
    exact not_lt.mpr (le_max_of_le_right (by rw [← hxy]; exact hx))
  simp only [sweep]
  rw [if_neg hnoemit_yx, if_neg hnoemit_xy, hstep, hxy]

/-- An interval can be moved in front of a block of intervals sharing its
start date without changing the sweep. -/
theorem sweep_bubble (E : α) (x : α × α) (hx : x.1 ≤ x.2) :
    ∀ (p : List (α × α)), (∀ q ∈ p, q.1 = x.1) → (∀ q ∈ p, q.1 ≤ q.2) →
      ∀ (r : List (α × α)) (c : α),
        sweep c E (p ++ x :: r) = sweep c E (x :: (p ++ r)) := by
  intro p
  induction p with
  | nil => intro _ _ r c; rfl
  | cons y p' ih =>
    intro hstart hwf r c
    have hy1 : y.1 = x.1 := hstart y (List.mem_cons_self _ _)
    have hywf : y.1 ≤ y.2 := hwf y (List.mem_cons_self _ _)
    have step1 : sweep c E ((y :: p') ++ x :: r) = sweep c E (y :: x :: (p' ++ r)) := by
      show (if c < y.1 then [(c, y.1)] else []) ++
          sweep (stepCursor c y.2) E (p' ++ x :: r) = _
      rw [ih (fun q hq => hstart q (List.mem_cons_of_mem _ hq))
        (fun q hq => hwf q (List.mem_cons_of_mem _ hq)) r (stepCursor c y.2)]
      rfl
    rw [step1, sweep_swap hy1.symm hx (hy1 ▸ hywf) E (p' ++ r) c]
    rfl

/-- Two start-sorted arrangements of the same multiset of well-formed
intervals produce the same sweep. -/
theorem sweep_congr_sorted (E : α) :
    ∀ (n : ℕ) (l₁ l₂ : List (α × α)), l₁.length ≤ n → l₁.Perm l₂ →
      l₁.Pairwise (fun a b => a.1 ≤ b.1) → l₂.Pairwise (fun a b => a.1 ≤ b.1) →
      (∀ p ∈ l₁, p.1 ≤ p.2) →
      ∀ c, sweep c E l₁ = sweep c E l₂ := by
  intro n
  induction n with
  | zero =>
    intro l₁ l₂ hlen hperm _ _ _ c
    have h1 : l₁ = [] := List.eq_nil_of_length_eq_zero (Nat.le_zero.mp hlen)
    subst h1
    rw [hperm.symm.eq_nil]
  | succ n ihn =>
    intro l₁ l₂ hlen hperm hs1 hs2 hwf c
    cases l₁ with
    | nil => rw [hperm.symm.eq_nil]
    | cons x t₁ =>
      have hx_mem : x ∈ l₂ := hperm.mem_iff.mp (List.mem_cons_self _ _)
      obtain ⟨p, r, rfl⟩ := List.append_of_mem hx_mem
      have hp_start : ∀ q ∈ p, q.1 = x.1 := by
        intro q hq
        have h1 : q.1 ≤ x.1 :=
          (List.pairwise_append.mp hs2).2.2 q hq x (List.mem_cons_self _ _)
        have hq1 : q ∈ x :: t₁ := hperm.mem_iff.mpr (List.mem_append_left _ hq)
        rcases List.mem_cons.mp hq1 with rfl | hq2
        · rfl
        · exact le_antisymm h1 ((List.pairwise_cons.mp hs1).1 q hq2)
      have hwf_p : ∀ q ∈ p, q.1 ≤ q.2 :=
        fun q hq => hwf q (hperm.mem_iff.mpr (List.mem_append_left _ hq))
      have hx_wf : x.1 ≤ x.2 := hwf x (List.mem_cons_self _ _)
      rw [sweep_bubble E x hx_wf p hp_start hwf_p r c]
      have hperm_t : t₁.Perm (p ++ r) := (hperm.trans List.perm_middle).cons_inv
      have hs_t : t₁.Pairwise (fun a b : α × α => a.1 ≤ b.1) :=
        (List.pairwise_cons.mp hs1).2
      have hs_pr : (p ++ r).Pairwise (fun a b : α × α => a.1 ≤ b.1) := by
        have hsub : (p ++ r).Sublist (p ++ x :: r) :=
          List.Sublist.append_left (List.sublist_cons_self x r) p
        exact hs2.sublist hsub
      have hwf_t : ∀ q ∈ t₁, q.1 ≤ q.2 := fun q hq => hwf q (List.mem_cons_of_mem _ hq)
      have hlen_t : t₁.length ≤ n := by
        simp only [List.length_cons] at hlen; omega
      show (if c < x.1 then [(c, x.1)] else []) ++ sweep (stepCursor c x.2) E t₁ = _
      rw [ihn t₁ (p ++ r) hlen_t hperm_t hs_t hs_pr hwf_t (stepCursor c x.2)]
      rfl

end SortCongr

/-! ### Evaluation helpers for concrete inputs -/

theorem decodePeriods_nil : decodePeriods [] = some [] := rfl

theorem decodePeriods_pair {s e : ℚ} {ds de : Date}
    (hs : year_month_to_date s = some ds) (he : year_month_to_date e = some de) :
    decodePeriods [(s, e)] = some [(ds, de)] := by
  simp only [decodePeriods, hs, he]

theorem decodePeriods_single_2001 :
    decodePeriods [(fl2001_10, fl2005_10)] = some [(⟨2001, 10, 1⟩, ⟨2005, 10, 1⟩)] :=
  decodePeriods_pair decode_fl2001_10 decode_fl2005_10

theorem complement_single_2001 :
    _complement_periods [(fl2001_10, fl2005_10)] (some ⟨2000, 1, 1⟩) (some ⟨2010, 1, 1⟩) =
      some [(⟨2000, 1, 1⟩, ⟨2001, 10, 1⟩), (⟨2005, 10, 1⟩, ⟨2010, 1, 1⟩)] := by
  rw [_complement_periods_eq _ _ decodePeriods_single_2001]
  decide

/-! ### The claims -/

/-- **C3.** Decoding is round-trip stable for the month encodings named in the
spec: the doubles denoted by the Python literals `2005.10` and `2005.1` are one
and the same value, and `year_month_to_date` sends it to the calendar date
(2005, 10, 1); likewise `2005.01` decodes to (2005, 1, 1).  No off-by-one month
error arises from the binary floating-point representation of the fractional
part. -/
theorem claim_C3 :
    fl2005_10 = fl2005_1 ∧
    year_month_to_date fl2005_10 = some ⟨2005, 10, 1⟩ ∧
    year_month_to_date fl2005_1 = some ⟨2005, 10, 1⟩ ∧
    year_month_to_date fl2005_01 = some ⟨2005, 1, 1⟩ :=
  ⟨rfl, decode_fl2005_10, decode_fl2005_1, decode_fl2005_01⟩

/-- **C4.** On the overlapping intervals [(2001.10, 2005.10), (2003.01, 2007.11)]
with window (2000-01-01, 2010-01-01), `_complement_periods` treats the union
2001-10-01..2007-11-01 as covered and returns exactly the segments
(2000-01-01, 2001-10-01) and (2007-11-01, 2010-01-01); moreover the cursor
update `stepCursor` never retreats. -/
theorem claim_C4 :
    _complement_periods [(fl2001_10, fl2005_10), (fl2003_01, fl2007_11)]
        (some ⟨2000, 1, 1⟩) (some ⟨2010, 1, 1⟩) =
      some [(⟨2000, 1, 1⟩, ⟨2001, 10, 1⟩), (⟨2007, 11, 1⟩, ⟨2010, 1, 1⟩)] ∧
    ∀ c pe : Date, c ≤ stepCursor c pe := by
  constructor
  · have hdec : decodePeriods [(fl2001_10, fl2005_10), (fl2003_01, fl2007_11)] =
        some [(⟨2001, 10, 1⟩, ⟨2005, 10, 1⟩), (⟨2003, 1, 1⟩, ⟨2007, 11, 1⟩)] := by
      simp only [decodePeriods, decode_fl2001_10, decode_fl2005_10, decode_fl2003_01,
        decode_fl2007_11]
    rw [_complement_periods_eq _ _ hdec]
    decide
  · exact fun c pe => le_stepCursor c pe

/-- **C7.** For every window with `window_start < window_end`,
`_complement_periods` on the empty interval list returns exactly the
one-element list containing the whole window. -/
theorem claim_C7 (ws we : Date) (h : ws < we) :
    _complement_periods [] (some ws) (some we) = some [(ws, we)] := by
  rw [_complement_periods_eq ws we decodePeriods_nil]
  show some (if ws < we then [(ws, we)] else []) = some [(ws, we)]
  rw [if_pos h]

theorem claim_C7_witness :
    (⟨2000, 1, 1⟩ : Date) < ⟨2010, 1, 1⟩ ∧
    _complement_periods [] (some ⟨2000, 1, 1⟩) (some ⟨2010, 1, 1⟩) =
      some [(⟨2000, 1, 1⟩, ⟨2010, 1, 1⟩)] :=
  ⟨by decide, claim_C7 ⟨2000, 1, 1⟩ ⟨2010, 1, 1⟩ (by decide)⟩

/-- **C8.** For every window W = (ds, de) with ds ≤ de given in YearMonth form,
`_complement_periods` applied to the single-interval list [W] and the window W
returns the empty list. -/
theorem claim_C8 (s e : ℚ) (ds de : Date) (hs : year_month_to_date s = some ds)
    (he : year_month_to_date e = some de) (hw : ds ≤ de) :
    _complement_periods [(s, e)] (some ds) (some de) = some [] := by
  rw [_complement_periods_eq ds de (decodePeriods_pair hs he)]
  have hstep : stepCursor ds de = de := by
    rw [stepCursor_eq_max]; exact max_eq_right hw
  show some ((if ds < ds then [(ds, ds)] else []) ++
      (if stepCursor ds de < de then [(stepCursor ds de, de)] else [])) = some []
  rw [hstep, if_neg (lt_irrefl ds), if_neg (lt_irrefl de), List.nil_append]

theorem claim_C8_witness :
    year_month_to_date fl2000_01 = some ⟨2000, 1, 1⟩ ∧
    year_month_to_date fl2030_08 = some ⟨2030, 8, 1⟩ ∧
    (⟨2000, 1, 1⟩ : Date) ≤ ⟨2030, 8, 1⟩ ∧
    _complement_periods [(fl2000_01, fl2030_08)] (some ⟨2000, 1, 1⟩)
      (some ⟨2030, 8, 1⟩) = some [] :=
  ⟨decode_fl2000_01, decode_fl2030_08, by decide,
    claim_C8 fl2000_01 fl2030_08 ⟨2000, 1, 1⟩ ⟨2030, 8, 1⟩ decode_fl2000_01
      decode_fl2030_08 (by decide)⟩

/-- **C10.** With an explicit degenerate window (`window_start ≥ window_end`)
and no intervals, `_complement_periods` returns the empty list (the final
emission happens only when the cursor is strictly before `window_end`), and no
error is raised. -/
theorem claim_C10 (ws we : Date) (h : we ≤ ws) :
    _complement_periods [] (some ws) (some we) = some [] := by
  rw [_complement_periods_eq ws we decodePeriods_nil]
  show some (if ws < we then [(ws, we)] else []) = some []
  rw [if_neg (not_lt.mpr h)]

theorem claim_C10_witness :
    (⟨2000, 1, 1⟩ : Date) ≤ ⟨2010, 1, 1⟩ ∧
    _complement_periods [] (some ⟨2010, 1, 1⟩) (some ⟨2000, 1, 1⟩) = some [] :=
  ⟨by decide, claim_C10 ⟨2010, 1, 1⟩ ⟨2000, 1, 1⟩ (by decide)⟩

/-- **C1.** For every decoded input interval list that is well-formed
(start ≤ end), pairwise non-overlapping (as sets of calendar days) and
contained in the window (ws, we), the list `_complement_periods` returns
consists of pairwise-disjoint intervals sorted strictly ascending by start,
each with start strictly before end; the union of the returned intervals with
the union of the inputs is exactly the half-open window [ws, we), and no
returned segment overlaps any input interval. -/
theorem claim_C1 (periods : List (ℚ × ℚ)) (ws we : Date)
    (pdt out : List (Date × Date))
    (hdec : decodePeriods periods = some pdt)
    (hwf : ∀ p ∈ pdt, p.1 ≤ p.2)
    (hdisj : pdt.Pairwise ivlDisjoint)
    (hwin : ∀ p ∈ pdt, ws ≤ p.1 ∧ p.2 ≤ we)
    (hout : _complement_periods periods (some ws) (some we) = some out) :
    (∀ p ∈ out, p.1 < p.2) ∧
    out.Pairwise (fun a b => a.1 < b.1) ∧
    out.Pairwise ivlDisjoint ∧
    (∀ d, (covers out d ∨ covers pdt d) ↔ inIvl (ws, we) d) ∧
    (∀ p ∈ out, ∀ q ∈ pdt, ivlDisjoint p q) := by
  rw [_complement_periods_eq ws we hdec] at hout
  injection hout with hout
  subst hout
  have hPerm : (sortPeriods pdt).Perm pdt := sortPeriods_perm pdt
  have hwfL : ∀ p ∈ sortPeriods pdt, p.1 ≤ p.2 :=
    fun p hp => hwf p (hPerm.mem_iff.mp hp)
  have hsortL := sortPeriods_sorted pdt
  have hdisjL : (sortPeriods pdt).Pairwise ivlDisjoint :=
    (hPerm.pairwise_iff (fun hab d h1 h2 => hab d h2 h1)).mpr hdisj
  have hbdL : ∀ p ∈ sortPeriods pdt, p.2 ≤ we :=
    fun p hp => (hwin p (hPerm.mem_iff.mp hp)).2
  have hinvL : ∀ p ∈ sortPeriods pdt, ws ≤ p.1 ∨ p.2 ≤ p.1 :=
    fun p hp => Or.inl (hwin p (hPerm.mem_iff.mp hp)).1
  obtain ⟨S1, S2, S3, S4, S5⟩ :=
    sweep_spec we (sortPeriods pdt) ws hwfL hsortL hdisjL hbdL hinvL
  refine ⟨S1, ?_, ?_, ?_, ?_⟩
  · exact S3.imp_of_mem (fun ha _ hab => lt_of_lt_of_le (S1 _ ha) hab)
  · exact S3.imp (fun hab d h1 h2 =>
      absurd (lt_of_lt_of_le h1.2 (le_trans hab h2.1)) (lt_irrefl d))
  · intro d
    have h4 := S4 d
    rw [covers_perm hPerm d] at h4
    exact h4
  · exact fun p hp q hq => S5 p hp q (hPerm.mem_iff.mpr hq)

theorem claim_C1_witness :
    (decodePeriods [(fl2001_10, fl2005_10)] =
        some [(⟨2001, 10, 1⟩, ⟨2005, 10, 1⟩)]) ∧
    (∀ p ∈ [((⟨2001, 10, 1⟩ : Date), (⟨2005, 10, 1⟩ : Date))], p.1 ≤ p.2) ∧
    (∀ p ∈ [((⟨2001, 10, 1⟩ : Date), (⟨2005, 10, 1⟩ : Date))],
        (⟨2000, 1, 1⟩ : Date) ≤ p.1 ∧ p.2 ≤ ⟨2010, 1, 1⟩) ∧
    ((∀ p ∈ [((⟨2000, 1, 1⟩ : Date), (⟨2001, 10, 1⟩ : Date)),
          (⟨2005, 10, 1⟩, ⟨2010, 1, 1⟩)], p.1 < p.2) ∧
      List.Pairwise (fun a b : Date × Date => a.1 < b.1)
        [((⟨2000, 1, 1⟩ : Date), (⟨2001, 10, 1⟩ : Date)),
          (⟨2005, 10, 1⟩, ⟨2010, 1, 1⟩)] ∧
      List.Pairwise ivlDisjoint
        [((⟨2000, 1, 1⟩ : Date), (⟨2001, 10, 1⟩ : Date)),
          (⟨2005, 10, 1⟩, ⟨2010, 1, 1⟩)] ∧
      (∀ d, (covers [((⟨2000, 1, 1⟩ : Date), (⟨2001, 10, 1⟩ : Date)),
            (⟨2005, 10, 1⟩, ⟨2010, 1, 1⟩)] d ∨
          covers [((⟨2001, 10, 1⟩ : Date), (⟨2005, 10, 1⟩ : Date))] d) ↔
          inIvl ((⟨2000, 1, 1⟩ : Date), (⟨2010, 1, 1⟩ : Date)) d) ∧
      (∀ p ∈ [((⟨2000, 1, 1⟩ : Date), (⟨2001, 10, 1⟩ : Date)),
            (⟨2005, 10, 1⟩, ⟨2010, 1, 1⟩)],
          ∀ q ∈ [((⟨2001, 10, 1⟩ : Date), (⟨2005, 10, 1⟩ : Date))],
          ivlDisjoint p q)) :=
  ⟨decodePeriods_single_2001, by decide, by decide,
    claim_C1 [(fl2001_10, fl2005_10)] ⟨2000, 1, 1⟩ ⟨2010, 1, 1⟩
      [(⟨2001, 10, 1⟩, ⟨2005, 10, 1⟩)]
      [(⟨2000, 1, 1⟩, ⟨2001, 10, 1⟩), (⟨2005, 10, 1⟩, ⟨2010, 1, 1⟩)]
      decodePeriods_single_2001 (by decide)
      (List.pairwise_singleton _ _) (by decide) complement_single_2001⟩

/-- **C2 counterexample.** The input interval (2030.01, 2030.08) lies wholly
after the window end 2010-01-01 (its start 2030-01-01 is beyond the window
end), yet the sweep emits the complement segment (2000-01-01, 2030-01-01),
which does not lie within the bounding window: its end exceeds `window_end`.
This refutes the claim that such an interval contributes no emission and that
every emitted interval lies within the window. -/
theorem claim_C2_counterexample :
    _complement_periods [(fl2030_01, fl2030_08)]
        (some ⟨2000, 1, 1⟩) (some ⟨2010, 1, 1⟩) =
      some [(⟨2000, 1, 1⟩, ⟨2030, 1, 1⟩)] ∧
    (⟨2010, 1, 1⟩ : Date) < ⟨2030, 1, 1⟩ ∧
    ¬ ((⟨2030, 1, 1⟩ : Date) ≤ ⟨2010, 1, 1⟩) := by
  refine ⟨?_, by decide, by decide⟩
  rw [_complement_periods_eq _ _ (decodePeriods_pair decode_fl2030_01 decode_fl2030_08)]
  decide

/-- **C2 (amended).** An input interval lying wholly at or before the cursor
(in particular, wholly before `window_start`, since the cursor starts there
and never decreases) contributes no emission and no cursor movement; and
provided every input interval starts no later than `window_end`, every emitted
complement interval lies within the bounding window.  (An interval wholly
after `window_end` does cause an emission that overshoots the window, as the
counterexample shows, so the window-containment guarantee needs the
start-bound hypothesis.) -/
theorem claim_C2_amended :
    (∀ (c E a b : Date) (rest : List (Date × Date)), a ≤ b → b ≤ c →
        sweep c E ((a, b) :: rest) = sweep c E rest) ∧
    (∀ (periods : List (ℚ × ℚ)) (ws we : Date) (pdt out : List (Date × Date)),
        decodePeriods periods = some pdt →
        (∀ p ∈ pdt, p.1 ≤ we) →
        _complement_periods periods (some ws) (some we) = some out →
        ∀ q ∈ out, ws ≤ q.1 ∧ q.2 ≤ we) := by
  constructor
  · intro c E a b rest hab hbc
    have hnoemit : ¬ c < a := not_lt.mpr (le_trans hab hbc)
    have hnostep : stepCursor c b = c := by
      rw [stepCursor_eq_max]; exact max_eq_left hbc
    show (if c < a then [(c, a)] else []) ++ sweep (stepCursor c b) E rest = sweep c E rest
    rw [if_neg hnoemit, hnostep, List.nil_append]
  · intro periods ws we pdt out hdec hbd hout q hq
    rw [_complement_periods_eq ws we hdec] at hout
    injection hout with hout
    subst hout
    have hPerm : (sortPeriods pdt).Perm pdt := sortPeriods_perm pdt
    exact sweep_bounds we (sortPeriods pdt) ws
      (fun p hp => hbd p (hPerm.mem_iff.mp hp)) q hq

theorem claim_C2_witness :
    ((⟨2001, 1, 1⟩ : Date) ≤ ⟨2003, 1, 1⟩ ∧ (⟨2003, 1, 1⟩ : Date) ≤ ⟨2005, 1, 1⟩ ∧
      sweep (⟨2005, 1, 1⟩ : Date) (⟨2010, 1, 1⟩ : Date)
          [(⟨2001, 1, 1⟩, ⟨2003, 1, 1⟩)] =
        sweep (⟨2005, 1, 1⟩ : Date) (⟨2010, 1, 1⟩ : Date) []) ∧
    (decodePeriods [(fl2001_10, fl2005_10)] =
        some [(⟨2001, 10, 1⟩, ⟨2005, 10, 1⟩)] ∧
      ∀ q ∈ [((⟨2000, 1, 1⟩ : Date), (⟨2001, 10, 1⟩ : Date)),
          (⟨2005, 10, 1⟩, ⟨2010, 1, 1⟩)],
        (⟨2000, 1, 1⟩ : Date) ≤ q.1 ∧ q.2 ≤ ⟨2010, 1, 1⟩) :=
  ⟨⟨by decide, by decide,
      claim_C2_amended.1 ⟨2005, 1, 1⟩ ⟨2010, 1, 1⟩ ⟨2001, 1, 1⟩ ⟨2003, 1, 1⟩ []
        (by decide) (by decide)⟩,
    ⟨decodePeriods_single_2001,
      claim_C2_amended.2 [(fl2001_10, fl2005_10)] ⟨2000, 1, 1⟩ ⟨2010, 1, 1⟩
        [(⟨2001, 10, 1⟩, ⟨2005, 10, 1⟩)]
        [(⟨2000, 1, 1⟩, ⟨2001, 10, 1⟩), (⟨2005, 10, 1⟩, ⟨2010, 1, 1⟩)]
        decodePeriods_single_2001 (by decide) complement_single_2001⟩⟩

/-- **C5.** `_complement_periods` sorts its input by start date before
sweeping, so its result is invariant under permutation of the input list of
(well-formed YearMonth) intervals, for any window. -/
theorem claim_C5 (periods₁ periods₂ : List (ℚ × ℚ)) (w₁ w₂ : Option Date)
    (hperm : periods₁.Perm periods₂)
    (hwf : ∀ p ∈ periods₁, ∃ a b : Date, year_month_to_date p.1 = some a ∧
        year_month_to_date p.2 = some b ∧ a ≤ b) :
    _complement_periods periods₁ w₁ w₂ = _complement_periods periods₂ w₁ w₂ := by
  have hsome₁ : ∀ p ∈ periods₁,
      (year_month_to_date p.1).isSome ∧ (year_month_to_date p.2).isSome := by
    intro p hp
    obtain ⟨a, b, ha, hb, -⟩ := hwf p hp
    exact ⟨by rw [ha]; rfl, by rw [hb]; rfl⟩
  have hsome₂ : ∀ p ∈ periods₂,
      (year_month_to_date p.1).isSome ∧ (year_month_to_date p.2).isSome :=
    fun p hp => hsome₁ p (hperm.mem_iff.mpr hp)
  have hd₁ := decodePeriods_eq_map hsome₁
  have hd₂ := decodePeriods_eq_map hsome₂
  have hwfm : ∀ q ∈ periods₁.map decodePeriodD, q.1 ≤ q.2 := by
    intro q hq
    rw [List.mem_map] at hq
    obtain ⟨p, hp, rfl⟩ := hq
    obtain ⟨a, b, ha, hb, hab⟩ := hwf p hp
    simp only [decodePeriodD, ha, hb, Option.getD_some]
    exact hab
  obtain ⟨sd, hsd⟩ : ∃ sd, resolveWindow w₁ fl2000_01 = some sd := by
    cases w₁ with
    | some d => exact ⟨d, rfl⟩
    | none => exact ⟨⟨2000, 1, 1⟩, decode_fl2000_01⟩
  obtain ⟨ed, hed⟩ : ∃ ed, resolveWindow w₂ fl2030_08 = some ed := by
    cases w₂ with
    | some d => exact ⟨d, rfl⟩
    | none => exact ⟨⟨2030, 8, 1⟩, decode_fl2030_08⟩
  unfold _complement_periods
  rw [hd₁, hd₂, hsd, hed]
  show some (sweep sd ed (sortPeriods (periods₁.map decodePeriodD))) =
    some (sweep sd ed (sortPeriods (periods₂.map decodePeriodD)))
  congr 1
  apply sweep_congr_sorted ed (sortPeriods (periods₁.map decodePeriodD)).length
    _ _ (le_refl _)
    ((sortPeriods_perm _).trans ((hperm.map decodePeriodD).trans
      (sortPeriods_perm _).symm))
    (sortPeriods_sorted _) (sortPeriods_sorted _)
    (fun q hq => hwfm q ((sortPeriods_perm _).mem_iff.mp hq))

theorem claim_C5_witness :
    [(fl2005_12, fl2007_11), (fl2001_10, fl2005_10)].Perm
      [(fl2001_10, fl2005_10), (fl2005_12, fl2007_11)] ∧
    _complement_periods [(fl2005_12, fl2007_11), (fl2001_10, fl2005_10)]
        (some ⟨2000, 1, 1⟩) (some ⟨2010, 1, 1⟩) =
      _complement_periods [(fl2001_10, fl2005_10), (fl2005_12, fl2007_11)]
        (some ⟨2000, 1, 1⟩) (some ⟨2010, 1, 1⟩) :=
  ⟨List.Perm.swap _ _ _,
    claim_C5 [(fl2005_12, fl2007_11), (fl2001_10, fl2005_10)]
      [(fl2001_10, fl2005_10), (fl2005_12, fl2007_11)]
      (some ⟨2000, 1, 1⟩) (some ⟨2010, 1, 1⟩) (List.Perm.swap _ _ _)
      (by
        intro p hp
        rcases List.mem_cons.mp hp with rfl | hp
        · exact ⟨⟨2005, 12, 1⟩, ⟨2007, 11, 1⟩, decode_fl2005_12, decode_fl2007_11,
            by decide⟩
        rcases List.mem_cons.mp hp with rfl | hp
        · exact ⟨⟨2001, 10, 1⟩, ⟨2005, 10, 1⟩, decode_fl2001_10, decode_fl2005_10,
            by decide⟩
        · exact absurd hp (List.not_mem_nil p))⟩

/-- **C6.** For every nonnegative rational YearMonth value which decodes (via
`year = ⌊value⌋`, `month = round((value - year) * 100)`) to a representable
calendar year and a month in [1, 12], `year_month_to_date` returns the
calendar date (year, month, 1); the day is always 1, and the `int()`
truncation in the code coincides with the floor of the specification. -/
theorem claim_C6 (q : ℚ) (y m : ℤ) (hy : ⌊q⌋ = y)
    (hm : pyRound ((q - (y : ℚ)) * 100) = m)
    (hy1 : 1 ≤ y) (hy2 : y ≤ 9999) (hm1 : 1 ≤ m) (hm2 : m ≤ 12) :
    year_month_to_date q = some ⟨y, m, 1⟩ :=
  year_month_to_date_eq hy hy1 hy2 hm hm1 hm2

theorem floor_q200512 : ⌊(2005 + 12/100 : ℚ)⌋ = 2005 := by
  rw [Int.floor_eq_iff]; norm_num

theorem month_q200512 : pyRound (((2005 + 12/100 : ℚ) - ((2005 : ℤ) : ℚ)) * 100) = 12 := by
  have h : ((2005 + 12/100 : ℚ) - ((2005 : ℤ) : ℚ)) * 100 = 12 := by norm_num
  rw [h, pyRound_of_lt_half (f := 12)]
  · rw [Int.floor_eq_iff]; norm_num
  · norm_num

theorem claim_C6_witness :
    (⌊(2005 + 12/100 : ℚ)⌋ = 2005) ∧
    (pyRound (((2005 + 12/100 : ℚ) - ((2005 : ℤ) : ℚ)) * 100) = 12) ∧
    ((1 : ℤ) ≤ 2005) ∧ ((2005 : ℤ) ≤ 9999) ∧ ((1 : ℤ) ≤ 12) ∧ ((12 : ℤ) ≤ 12) ∧
    year_month_to_date (2005 + 12/100 : ℚ) = some ⟨2005, 12, 1⟩ :=
  ⟨floor_q200512, month_q200512, by decide, by decide, by decide, by decide,
    claim_C6 (2005 + 12/100 : ℚ) 2005 12 floor_q200512 month_q200512
      (by decide) (by decide) (by decide) (by decide)⟩

/-- **C9.** For a YearMonth value whose integer part is a representable
calendar year, `year_month_to_date` fails (the embedded `datetime`
constructor rejects the month) exactly when the decoded month lies outside
[1, 12] — e.g. for the literals 2005.13 (month 13) and 2005.00 (month 0). -/
theorem claim_C9 (q : ℚ) (y m : ℤ) (hy : ⌊q⌋ = y)
    (hm : pyRound ((q - (y : ℚ)) * 100) = m) (hy1 : 1 ≤ y) (hy2 : y ≤ 9999) :
    (year_month_to_date q = none ↔ (m < 1 ∨ 12 < m)) := by
  constructor
  · intro hnone
    by_contra hbad
    push_neg at hbad
    rw [year_month_to_date_eq hy hy1 hy2 hm hbad.1 hbad.2] at hnone
    exact Option.noConfusion hnone
  · exact year_month_to_date_eq_none hy hy1 hm

theorem floor_fl2005_13 : ⌊fl2005_13⌋ = 2005 := by
  rw [Int.floor_eq_iff]; norm_num [fl2005_13]

theorem month_fl2005_13 : pyRound ((fl2005_13 - ((2005 : ℤ) : ℚ)) * 100) = 13 := by
  rw [pyRound_of_lt_half (f := 13)]
  · rw [Int.floor_eq_iff]; norm_num [fl2005_13]
  · norm_num [fl2005_13]

theorem claim_C9_witness :
    (⌊fl2005_13⌋ = 2005) ∧
    (pyRound ((fl2005_13 - ((2005 : ℤ) : ℚ)) * 100) = 13) ∧
    ((1 : ℤ) ≤ 2005) ∧ ((2005 : ℤ) ≤ 9999) ∧
    year_month_to_date fl2005_13 = none :=
  ⟨floor_fl2005_13, month_fl2005_13, by decide, by decide,
    (claim_C9 fl2005_13 2005 13 floor_fl2005_13 month_fl2005_13 (by decide)
      (by decide)).mpr (Or.inr (by decide))⟩
